import Mathlib

/-!
# UART to BLE custom-service bridge (`main.c`)

A shallow embedding of the two event handlers of `main.c` that carry state:

* `on_ble_evt`, which maintains the connection handle `m_conn_handle`;
* `uart_evt_handler`, which accumulates received bytes in the static
  `data_array` / `index` pair and hands completed frames to
  `ble_cus_string_send`;

together with `data_send`.  The capacity `BLE_CUS_MAX_DATA_LEN` comes from a
header that is not part of the sources, so it is a parameter `N` throughout.
The result code of every SoftDevice / service call is an input of the model:
the handlers are functions of the state, the event and that code.
-/

namespace GattBridge

/-! ## Data model -/

/-- A `uint8_t` value. -/
abbrev Byte := Fin 256

/-- The frame delimiter, the character constant `'\n'`. -/
def LF : Byte := 10

/-- Result code `NRF_SUCCESS` of the SDK (`nrf_error.h`). -/
def NRF_SUCCESS : Nat := 0

/-- Result code `NRF_ERROR_INVALID_STATE` of the SDK (`nrf_error.h`). -/
def NRF_ERROR_INVALID_STATE : Nat := 8

/-- Result code `BLE_ERROR_NO_TX_BUFFERS` of the SoftDevice (`ble_err.h`): the
notification queue is full. -/
def BLE_ERROR_NO_TX_BUFFERS : Nat := 0x3004

/-- The handle value `BLE_CONN_HANDLE_INVALID` of the SoftDevice (`ble.h`). -/
def BLE_CONN_HANDLE_INVALID : Nat := 0xFFFF

/-- The mutable statics of `main.c`: the file-level `m_conn_handle` and the two
function-level statics `data_array`, `index` of `uart_evt_handler`.  The buffer
is a list whose length is the declared array size. -/
structure AppState where
  m_conn_handle : Nat
  data_array : List Byte
  index : Nat
deriving DecidableEq, Repr

/-- What one handler invocation (or a run of them) does: the statics afterwards,
the payloads passed to `ble_cus_string_send` in call order, and the code handed
to the fatal error handler when it was invoked.  When `fatal` is `some _` the
device has halted inside the handler and `st` is the memory at that moment. -/
structure Effect where
  st : AppState
  sends : List (List Byte)
  fatal : Option Nat
deriving DecidableEq, Repr

/-- The UART events `uart_evt_handler` switches on.  `APP_UART_DATA_READY`
carries the byte that `app_uart_get` pops from the receive FIFO. -/
inductive app_uart_evt_t where
  | APP_UART_DATA_READY (rx : Byte)
  | APP_UART_COMMUNICATION_ERROR (error_communication : Nat)
  | APP_UART_FIFO_ERROR (error_code : Nat)
  | APP_UART_OTHER
deriving DecidableEq, Repr

/-- The event identifiers `on_ble_evt` switches on; every other identifier is
`BLE_EVT_OTHER`. -/
inductive ble_evt_id_t where
  | BLE_GAP_EVT_CONNECTED
  | BLE_GAP_EVT_DISCONNECTED
  | BLE_GAP_EVT_SEC_PARAMS_REQUEST
  | BLE_GATTS_EVT_SYS_ATTR_MISSING
  | BLE_EVT_OTHER (evt_id : Nat)
deriving DecidableEq, Repr

/-- The fields of `ble_evt_t` read by `on_ble_evt`: `header.evt_id` and
`evt.gap_evt.conn_handle`. -/
structure ble_evt_t where
  evt_id : ble_evt_id_t
  conn_handle : Nat
deriving DecidableEq, Repr

/-! ## Error macros -/

/-- Modelled from the spec: the SDK macro `APP_ERROR_HANDLER` (its header is not
among the sources) hands the code to the fatal error handler, which halts the
whole device.  The result is the code the device halted with. -/
def APP_ERROR_HANDLER (err_code : Nat) : Option Nat :=
  some err_code

/-- Modelled from the spec: the SDK macro `APP_ERROR_CHECK` (its header is not
among the sources) invokes the fatal error handler for every code other than
`NRF_SUCCESS` and does nothing otherwise. -/
def APP_ERROR_CHECK (err_code : Nat) : Option Nat :=
  if err_code ≠ NRF_SUCCESS then APP_ERROR_HANDLER err_code else none

/-! ## The handlers -/

/-- The function `on_ble_evt`.  `sd_result` is the code returned by the
SoftDevice call made in the `SEC_PARAMS_REQUEST` / `SYS_ATTR_MISSING` cases. -/
def on_ble_evt (s : AppState) (p_ble_evt : ble_evt_t) (sd_result : Nat) : Effect :=
  match p_ble_evt.evt_id with
  | .BLE_GAP_EVT_CONNECTED =>
      ⟨{ s with m_conn_handle := p_ble_evt.conn_handle }, [], none⟩
  | .BLE_GAP_EVT_DISCONNECTED =>
      ⟨{ s with m_conn_handle := BLE_CONN_HANDLE_INVALID }, [], none⟩
  | .BLE_GAP_EVT_SEC_PARAMS_REQUEST =>
      ⟨s, [], APP_ERROR_CHECK sd_result⟩
  | .BLE_GATTS_EVT_SYS_ATTR_MISSING =>
      ⟨s, [], APP_ERROR_CHECK sd_result⟩
  | .BLE_EVT_OTHER _ =>
      ⟨s, [], none⟩

/-- The function `uart_evt_handler` with `BLE_CUS_MAX_DATA_LEN = N`.
`send_result` is the code `ble_cus_string_send` returns if it is called.  The
result is `none` when the handler accesses `data_array` outside its bounds
(the write `data_array[index]`, or the read `data_array[index - 1]` after the
8-bit `index++` wrapped to 0).  The echo `printf` changes none of the statics
and is left out. -/
def uart_evt_handler (N : Nat) (s : AppState) (p_event : app_uart_evt_t)
    (send_result : Nat) : Option Effect :=
  match p_event with
  | .APP_UART_DATA_READY rx =>
      if s.index < s.data_array.length then
        let data_array := s.data_array.set s.index rx
        let index := (s.index + 1) % 256
        if index = 0 then none
        else
          match data_array[index - 1]? with
          | none => none
          | some last =>
              if last = LF ∨ index ≥ N then
                let payload := data_array.take index
                let halted :=
                  if send_result ≠ NRF_ERROR_INVALID_STATE then APP_ERROR_CHECK send_result
                  else none
                match halted with
                | some code =>
                    some ⟨{ s with data_array := data_array, index := index }, [payload], some code⟩
                | none =>
                    some ⟨{ s with data_array := data_array, index := 0 }, [payload], none⟩
              else
                some ⟨{ s with data_array := data_array, index := index }, [], none⟩
      else none
  | .APP_UART_COMMUNICATION_ERROR error_communication =>
      some ⟨s, [], APP_ERROR_HANDLER error_communication⟩
  | .APP_UART_FIFO_ERROR error_code =>
      some ⟨s, [], APP_ERROR_HANDLER error_code⟩
  | .APP_UART_OTHER =>
      some ⟨s, [], none⟩

/-- The static `data_array` of `data_send`: the string `"j\n"` followed by zero
bytes up to the capacity `N`. -/
def data_send_array (N : Nat) : List Byte :=
  ([106, LF] ++ List.replicate (N - 2) 0).take N

/-- The function `data_send`: one call of `ble_cus_string_send` with the first
two bytes of its own static array, then the same error check as the UART
handler.  It touches none of the statics in `AppState`. -/
def data_send (N : Nat) (s : AppState) (send_result : Nat) : Effect :=
  let halted :=
    if send_result ≠ NRF_ERROR_INVALID_STATE then APP_ERROR_CHECK send_result else none
  ⟨s, [(data_send_array N).take 2], halted⟩

/-! ## Runs -/

/-- Dispatch a sequence of UART events, each paired with the code
`ble_cus_string_send` would return during it, to `uart_evt_handler`, one at a
time.  Dispatch stops when the fatal error handler halts the device. -/
def uart_run (N : Nat) (s : AppState) : List (app_uart_evt_t × Nat) → Option Effect
  | [] => some ⟨s, [], none⟩
  | (e, code) :: rest =>
      match uart_evt_handler N s e code with
      | none => none
      | some r =>
          match r.fatal with
          | some _ => some r
          | none =>
              match uart_run N r.st rest with
              | none => none
              | some r2 => some ⟨r2.st, r.sends ++ r2.sends, r2.fatal⟩

/-- The data-ready event for one received byte, paired with a send result. -/
def rxEvent (p : Byte × Nat) : app_uart_evt_t × Nat :=
  (.APP_UART_DATA_READY p.1, p.2)

/-- Feed bytes to `uart_evt_handler`, one `APP_UART_DATA_READY` event each. -/
def feed (N : Nat) (s : AppState) (input : List (Byte × Nat)) : Option Effect :=
  uart_run N s (input.map rxEvent)

/-- Dispatch a sequence of BLE events, each paired with the code of the
SoftDevice call made during it, to `on_ble_evt`.  Dispatch stops when the fatal
error handler halts the device. -/
def ble_run (s : AppState) : List (ble_evt_t × Nat) → Effect
  | [] => ⟨s, [], none⟩
  | (e, code) :: rest =>
      let r := on_ble_evt s e code
      match r.fatal with
      | some _ => r
      | none => ble_run r.st rest

/-- The events of a sequence that `on_ble_evt` gets to handle: all of them up to
and including the first one during which the device halts. -/
def ble_handled (s : AppState) : List (ble_evt_t × Nat) → List ble_evt_t
  | [] => []
  | (e, code) :: rest =>
      let r := on_ble_evt s e code
      match r.fatal with
      | some _ => [e]
      | none => e :: ble_handled r.st rest

/-- The statics at start-up: no peer, a zeroed buffer of `N` cells, index 0. -/
def initial (N : Nat) : AppState :=
  ⟨BLE_CONN_HANDLE_INVALID, List.replicate N 0, 0⟩

/-- A state is well formed for capacity `N` when the buffer has `N` cells and
the write index points inside it. -/
def WellFormed (N : Nat) (s : AppState) : Prop :=
  s.data_array.length = N ∧ s.index < N

instance (N : Nat) (s : AppState) : Decidable (WellFormed N s) := by
  unfold WellFormed; infer_instance

/-- The bytes accumulated for the frame in progress: positions `0 .. index-1`
of the buffer. -/
def pending (s : AppState) : List Byte :=
  s.data_array.take s.index

/-- The byte sequence carried by a list of (byte, send result) inputs. -/
def bytesOf (input : List (Byte × Nat)) : List Byte :=
  input.map Prod.fst

/-- The shape of a payload handed to `ble_cus_string_send`: between 1 and `N`
bytes, no delimiter before the last byte, and either terminated by the
delimiter or exactly `N` bytes long. -/
def FrameShape (N : Nat) (p : List Byte) : Prop :=
  1 ≤ p.length ∧ p.length ≤ N ∧ LF ∉ p.dropLast ∧ (p.getLast? = some LF ∨ p.length = N)

/-! ## Statements under test

The following predicates word four statements about the bridge exactly as its
description makes them; they are compared with the handlers below. -/

/-- The single-step contract of byte ingestion, as described: the byte is
stored at the write index; a delimiter or a full buffer gives exactly one send
of the accumulated bytes and leaves the index at 0; any other byte gives no
send and leaves the index advanced by one. -/
def StepContract (N : Nat) (s : AppState) (b : Byte) (code : Nat) : Prop :=
  ∃ r, uart_evt_handler N s (.APP_UART_DATA_READY b) code = some r ∧
    r.st.data_array = s.data_array.set s.index b ∧
    (if b = LF ∨ N ≤ s.index + 1 then
      r.sends = [pending s ++ [b]] ∧ (pending s ++ [b]).length = s.index + 1 ∧ r.st.index = 0
    else r.sends = [] ∧ r.st.index = s.index + 1)

/-- Force-flush at capacity, as described: feeding `N` bytes to an empty buffer
makes no send during the first `N - 1` bytes and exactly one send, of all the
bytes, on the last one, with the index at 0 afterwards. -/
def ForceFlushContract (N : Nat) (s : AppState) (input : List (Byte × Nat)) : Prop :=
  (∃ r1, feed N s (input.take (N - 1)) = some r1 ∧ r1.sends = []) ∧
  ∃ r, feed N s input = some r ∧ r.sends = [bytesOf input] ∧ r.st.index = 0

/-- A dropped frame, as described for suppressed and transient failures alike:
the completing byte makes one send, the fatal error handler is not invoked and
the index is back at 0. -/
def FrameDropped (N : Nat) (s : AppState) (b : Byte) (code : Nat) : Prop :=
  ∃ r, uart_evt_handler N s (.APP_UART_DATA_READY b) code = some r ∧
    r.sends.length = 1 ∧ r.fatal = none ∧ r.st.index = 0

/-- Gating on link readiness, as described: with no peer connected the
completing byte makes the handler invoke no send at all. -/
def SendGated (N : Nat) (s : AppState) (b : Byte) (code : Nat) : Prop :=
  s.m_conn_handle = BLE_CONN_HANDLE_INVALID →
    ∃ r, uart_evt_handler N s (.APP_UART_DATA_READY b) code = some r ∧ r.sends = []

/-- The handle a sequence of handled BLE events leaves behind when it started
from `h0`, worded as the lifecycle rule: look at the most recent event that is a
connect or a disconnect; a connect leaves its handle, a disconnect leaves
`BLE_CONN_HANDLE_INVALID`, and without either the handle is still `h0`. -/
def handleAfter (h0 : Nat) (evs : List ble_evt_t) : Nat :=
  match evs.reverse.find? (fun e =>
      decide (e.evt_id = .BLE_GAP_EVT_CONNECTED) ||
        decide (e.evt_id = .BLE_GAP_EVT_DISCONNECTED)) with
  | some e =>
      if e.evt_id = .BLE_GAP_EVT_CONNECTED then e.conn_handle else BLE_CONN_HANDLE_INVALID
  | none => h0

/-- The handle of the most recent connect event if no disconnect followed it,
`BLE_CONN_HANDLE_INVALID` otherwise. -/
def expected_conn_handle (evs : List ble_evt_t) : Nat :=
  handleAfter BLE_CONN_HANDLE_INVALID evs

/-- The input `"abcdefgh"`, every send answered with `code`. -/
def abcdefgh (code : Nat) : List (Byte × Nat) :=
  [(97, code), (98, code), (99, code), (100, code), (101, code), (102, code), (103, code),
    (104, code)]

/-! ## One data-ready event -/

theorem handler_dataReady (N : Nat) (s : AppState) (rx : Byte) (code : Nat)
    (hlen : s.data_array.length = N) (hi : s.index < N) (h8 : s.index < 255) :
    uart_evt_handler N s (.APP_UART_DATA_READY rx) code =
      if rx = LF ∨ N ≤ s.index + 1 then
        if code = NRF_SUCCESS ∨ code = NRF_ERROR_INVALID_STATE then
          some ⟨{ s with data_array := s.data_array.set s.index rx, index := 0 },
            [pending s ++ [rx]], none⟩
        else
          some ⟨{ s with data_array := s.data_array.set s.index rx, index := s.index + 1 },
            [pending s ++ [rx]], some code⟩
      else
        some ⟨{ s with data_array := s.data_array.set s.index rx, index := s.index + 1 },
          [], none⟩ := by
  have hmod : (s.index + 1) % 256 = s.index + 1 := Nat.mod_eq_of_lt (by omega)
  have hget : (s.data_array.set s.index rx)[s.index]? = some rx := by
    simp [List.getElem?_set, hlen, hi]
  have htake : (s.data_array.set s.index rx).take (s.index + 1)
      = s.data_array.take s.index ++ [rx] := by
    rw [List.take_succ, hget, List.set_take,
      List.set_eq_of_length_le (by simp)]
    rfl
  simp only [uart_evt_handler, hlen, hi, if_true, hmod, Nat.add_sub_cancel, hget, htake,
    pending]
  simp only [APP_ERROR_CHECK, APP_ERROR_HANDLER, NRF_SUCCESS, NRF_ERROR_INVALID_STATE]
  by_cases h1 : rx = LF ∨ N ≤ s.index + 1
  · by_cases h2 : code = 8
    · simp [h1, h2]
    · by_cases h3 : code = 0
      · simp [h1, h3]
      · simp [h1, h2, h3]
  · simp [h1]

theorem pending_after_store (s : AppState) (rx : Byte) (hi : s.index < s.data_array.length) :
    pending { s with data_array := s.data_array.set s.index rx, index := s.index + 1 }
      = pending s ++ [rx] := by
  show (s.data_array.set s.index rx).take (s.index + 1) = pending s ++ [rx]
  have hget : (s.data_array.set s.index rx)[s.index]? = some rx := by
    simp [List.getElem?_set, hi]
  rw [List.take_succ, hget, List.set_take, List.set_eq_of_length_le (by simp)]
  rfl

/-! ## Unfolding runs -/

theorem uart_run_cons_ok (N : Nat) (s : AppState) (e : app_uart_evt_t) (code : Nat)
    (rest : List (app_uart_evt_t × Nat)) (r : Effect)
    (h : uart_evt_handler N s e code = some r) (hf : r.fatal = none) :
    uart_run N s ((e, code) :: rest) =
      (uart_run N r.st rest).map (fun r2 => ⟨r2.st, r.sends ++ r2.sends, r2.fatal⟩) := by
  simp only [uart_run, h, hf]
  cases uart_run N r.st rest <;> rfl

theorem uart_run_cons_fatal (N : Nat) (s : AppState) (e : app_uart_evt_t) (code : Nat)
    (rest : List (app_uart_evt_t × Nat)) (r : Effect) (c : Nat)
    (h : uart_evt_handler N s e code = some r) (hf : r.fatal = some c) :
    uart_run N s ((e, code) :: rest) = some r := by
  simp only [uart_run, h, hf]

/-- A byte that neither ends the line nor fills the buffer is stored and the
run continues with the index advanced. -/
theorem feed_cons_pending (N : Nat) (s : AppState) (b : Byte) (code : Nat)
    (rest : List (Byte × Nat)) (hlen : s.data_array.length = N) (h8 : s.index < 255)
    (hb : b ≠ LF) (hi : s.index + 1 < N) :
    feed N s ((b, code) :: rest) =
      feed N { s with data_array := s.data_array.set s.index b, index := s.index + 1 } rest := by
  have hstep := handler_dataReady N s b code hlen (by omega) h8
  rw [if_neg (by intro h; rcases h with h | h; exact hb h; omega)] at hstep
  have hrun := uart_run_cons_ok N s (.APP_UART_DATA_READY b) code (rest.map rxEvent) _ hstep rfl
  simp only [feed, List.map_cons, rxEvent] at hrun ⊢
  rw [hrun]
  simp only [List.nil_append]
  cases uart_run N _ (List.map rxEvent rest) <;> rfl

/-- A byte that completes a frame whose send returns `NRF_SUCCESS` or
`NRF_ERROR_INVALID_STATE`: one payload, and the run continues from index 0. -/
theorem feed_cons_flush (N : Nat) (s : AppState) (b : Byte) (code : Nat)
    (rest : List (Byte × Nat)) (hlen : s.data_array.length = N) (hi : s.index < N)
    (h8 : s.index < 255) (hb : b = LF ∨ N ≤ s.index + 1)
    (hc : code = NRF_SUCCESS ∨ code = NRF_ERROR_INVALID_STATE) :
    feed N s ((b, code) :: rest) =
      (feed N { s with data_array := s.data_array.set s.index b, index := 0 } rest).map
        (fun r2 => ⟨r2.st, (pending s ++ [b]) :: r2.sends, r2.fatal⟩) := by
  have hstep := handler_dataReady N s b code hlen hi h8
  rw [if_pos hb, if_pos hc] at hstep
  have hrun := uart_run_cons_ok N s (.APP_UART_DATA_READY b) code (rest.map rxEvent) _ hstep rfl
  simp only [feed, List.map_cons, rxEvent] at hrun ⊢
  rw [hrun]
  rfl

/-- A byte that completes a frame whose send returns any other code: one
payload, then the device halts. -/
theorem feed_cons_halt (N : Nat) (s : AppState) (b : Byte) (code : Nat)
    (rest : List (Byte × Nat)) (hlen : s.data_array.length = N) (hi : s.index < N)
    (h8 : s.index < 255) (hb : b = LF ∨ N ≤ s.index + 1)
    (hc : ¬ (code = NRF_SUCCESS ∨ code = NRF_ERROR_INVALID_STATE)) :
    feed N s ((b, code) :: rest) =
      some ⟨{ s with data_array := s.data_array.set s.index b, index := s.index + 1 },
        [pending s ++ [b]], some code⟩ := by
  have hstep := handler_dataReady N s b code hlen hi h8
  rw [if_pos hb, if_neg hc] at hstep
  have hrun := uart_run_cons_fatal N s (.APP_UART_DATA_READY b) code (rest.map rxEvent) _ code
    hstep rfl
  simp only [feed, List.map_cons, rxEvent] at hrun ⊢
  rw [hrun]

/-! ## Invariants of runs -/

/-- From a well-formed state every event is handled without leaving the
buffer; the buffer keeps its size, the index stays at most `N`, is below `N`
unless the device halted, and the connection handle is untouched. -/
theorem handler_invariant (N : Nat) (s : AppState) (e : app_uart_evt_t) (code : Nat)
    (hN : N ≤ 255) (hwf : WellFormed N s) :
    ∃ r, uart_evt_handler N s e code = some r ∧ r.st.data_array.length = N ∧
      r.st.index ≤ N ∧ (r.fatal = none → r.st.index < N) ∧
      r.st.m_conn_handle = s.m_conn_handle := by
  obtain ⟨hlen, hi⟩ := hwf
  cases e with
  | APP_UART_DATA_READY rx =>
    rw [handler_dataReady N s rx code hlen hi (by omega)]
    by_cases h1 : rx = LF ∨ N ≤ s.index + 1
    · by_cases h2 : code = NRF_SUCCESS ∨ code = NRF_ERROR_INVALID_STATE
      · rw [if_pos h1, if_pos h2]
        exact ⟨_, rfl, by simp [hlen], by simp, fun _ => by simp; omega, rfl⟩
      · rw [if_pos h1, if_neg h2]
        exact ⟨_, rfl, by simp [hlen], by simp; omega, fun h => by simp at h, rfl⟩
    · rw [if_neg h1]
      have h3 : s.index + 1 < N := by
        by_contra hc
        exact h1 (Or.inr (by omega))
      exact ⟨_, rfl, by simp [hlen], by simp; omega, fun _ => by simpa using h3, rfl⟩
  | APP_UART_COMMUNICATION_ERROR c =>
    exact ⟨_, rfl, hlen, by simp; omega, fun h => by simp [APP_ERROR_HANDLER] at h, rfl⟩
  | APP_UART_FIFO_ERROR c =>
    exact ⟨_, rfl, hlen, by simp; omega, fun h => by simp [APP_ERROR_HANDLER] at h, rfl⟩
  | APP_UART_OTHER =>
    exact ⟨_, rfl, hlen, by simp; omega, fun _ => hi, rfl⟩

theorem uart_run_invariant (N : Nat) (hN : N ≤ 255) (evs : List (app_uart_evt_t × Nat)) :
    ∀ s : AppState, WellFormed N s →
      ∃ r, uart_run N s evs = some r ∧ r.st.data_array.length = N ∧
        r.st.index ≤ N ∧ (r.fatal = none → r.st.index < N) ∧
        r.st.m_conn_handle = s.m_conn_handle := by
  induction evs with
  | nil =>
    intro s hwf
    exact ⟨_, rfl, hwf.1, Nat.le_of_lt hwf.2, fun _ => hwf.2, rfl⟩
  | cons p rest ih =>
    intro s hwf
    obtain ⟨e, code⟩ := p
    obtain ⟨r, hr, hlen, hle, hlt, hconn⟩ := handler_invariant N s e code hN hwf
    cases hf : r.fatal with
    | some c =>
      rw [uart_run_cons_fatal N s e code rest r c hr hf]
      exact ⟨r, rfl, hlen, hle, hlt, hconn⟩
    | none =>
      rw [uart_run_cons_ok N s e code rest r hr hf]
      obtain ⟨r2, hr2, hlen2, hle2, hlt2, hconn2⟩ := ih r.st ⟨hlen, hlt hf⟩
      rw [hr2]
      exact ⟨_, rfl, hlen2, hle2, hlt2, hconn2.trans hconn⟩

/-! ## Frames produced by a byte stream -/

theorem pending_length (N : Nat) (s : AppState) (hwf : WellFormed N s) :
    (pending s).length = s.index := by
  obtain ⟨hlen, hi⟩ := hwf
  simp only [pending, List.length_take]
  omega

theorem frameShape_flush (N : Nat) (s : AppState) (b : Byte) (hwf : WellFormed N s)
    (hno : LF ∉ pending s) (hb : b = LF ∨ N ≤ s.index + 1) :
    FrameShape N (pending s ++ [b]) := by
  have hl := pending_length N s hwf
  obtain ⟨_, hi⟩ := hwf
  refine ⟨by simp, by simp [hl]; omega, by simpa using hno, ?_⟩
  rcases hb with hb | hb
  · left; simp [hb]
  · right; simp [hl]; omega

/-- Everything a byte stream makes the handler send, for a run that starts in a
well-formed state whose pending bytes hold no delimiter. -/
theorem feed_frames (N : Nat) (hN : N ≤ 255) (input : List (Byte × Nat)) :
    ∀ s : AppState, WellFormed N s → LF ∉ pending s → ∀ r, feed N s input = some r →
      (r.fatal = none → r.sends.flatten ++ pending r.st = pending s ++ bytesOf input) ∧
      r.sends.flatten <+: pending s ++ bytesOf input ∧
      (∀ p ∈ r.sends, FrameShape N p) ∧
      (r.fatal = none → LF ∉ pending r.st) := by
  induction input with
  | nil =>
    intro s _ hno r h
    simp only [feed, List.map_nil, uart_run, Option.some.injEq] at h
    subst h
    simp [bytesOf, hno]
  | cons p rest ih =>
    intro s hwf hno r h
    obtain ⟨b, code⟩ := p
    have hlen := hwf.1
    have hi := hwf.2
    have h8 : s.index < 255 := by omega
    by_cases hb : b = LF ∨ N ≤ s.index + 1
    · have hshape := frameShape_flush N s b hwf hno hb
      by_cases hc : code = NRF_SUCCESS ∨ code = NRF_ERROR_INVALID_STATE
      · rw [feed_cons_flush N s b code rest hlen hi h8 hb hc] at h
        obtain ⟨r2, hr2, rfl⟩ := Option.map_eq_some'.mp h
        have hwf0 : WellFormed N
            { s with data_array := s.data_array.set s.index b, index := 0 } :=
          ⟨by simp [hlen], by simp; omega⟩
        obtain ⟨h1, h2, h3, h4⟩ := ih _ hwf0 (by simp [pending]) r2 hr2
        have hp0 : pending
            { s with data_array := s.data_array.set s.index b, index := 0 } = [] := by
          simp [pending]
        rw [hp0, List.nil_append] at h1 h2
        refine ⟨fun hf => ?_, ?_, ?_, h4⟩
        · simp only [List.flatten_cons, List.append_assoc]
          rw [h1 hf]
          simp [bytesOf]
        · simp only [List.flatten_cons, bytesOf, List.map_cons, List.append_assoc,
            List.singleton_append]
          exact (List.prefix_append_right_inj _).mpr
            ((List.prefix_append_right_inj [b]).mpr h2)
        · intro p hp
          rcases List.mem_cons.mp hp with rfl | hp
          · exact hshape
          · exact h3 p hp
      · rw [feed_cons_halt N s b code rest hlen hi h8 hb hc] at h
        simp only [Option.some.injEq] at h
        subst h
        refine ⟨fun hf => by simp at hf, ?_, ?_, fun hf => by simp at hf⟩
        · simp only [List.flatten_cons, List.flatten_nil, List.append_nil, bytesOf,
            List.map_cons]
          exact (List.prefix_append_right_inj _).mpr (by simp)
        · intro p hp
          simp only [List.mem_singleton] at hp
          subst hp
          exact hshape
    · have hb1 : b ≠ LF := fun hc => hb (Or.inl hc)
      have hb2 : s.index + 1 < N := by
        by_contra hc
        exact hb (Or.inr (by omega))
      rw [feed_cons_pending N s b code rest hlen h8 hb1 hb2] at h
      have hwf1 : WellFormed N
          { s with data_array := s.data_array.set s.index b, index := s.index + 1 } :=
        ⟨by simp [hlen], hb2⟩
      have hp1 : pending
          { s with data_array := s.data_array.set s.index b, index := s.index + 1 }
            = pending s ++ [b] :=
        pending_after_store s b (by omega)
      have hno1 : LF ∉ pending
          { s with data_array := s.data_array.set s.index b, index := s.index + 1 } := by
        rw [hp1]
        simp only [List.mem_append, List.mem_singleton, not_or]
        exact ⟨hno, fun hc => hb1 hc.symm⟩
      obtain ⟨h1, h2, h3, h4⟩ := ih _ hwf1 hno1 r h
      rw [hp1] at h1 h2
      simp only [bytesOf, List.map_cons, List.append_assoc, List.singleton_append] at h1 h2 ⊢
      exact ⟨h1, h2, h3, h4⟩

/-- Bytes that neither contain the delimiter nor fill the buffer are only
stored: no send, no halt, the index advanced by their number. -/
theorem feed_no_frame (N : Nat) (input : List (Byte × Nat)) :
    ∀ s : AppState, s.data_array.length = N → s.index + input.length < N →
      s.index + input.length ≤ 255 → (∀ p ∈ input, p.1 ≠ LF) →
      ∃ r, feed N s input = some r ∧ r.sends = [] ∧ r.fatal = none ∧
        r.st.index = s.index + input.length ∧ r.st.data_array.length = N ∧
        pending r.st = pending s ++ bytesOf input := by
  induction input with
  | nil =>
    intro s hlen _ _ _
    exact ⟨⟨s, [], none⟩, rfl, rfl, rfl, rfl, hlen, by simp [bytesOf]⟩
  | cons p rest ih =>
    intro s hlen hi h8 hno
    obtain ⟨b, code⟩ := p
    simp only [List.length_cons] at hi h8
    have hb : b ≠ LF := hno (b, code) (List.mem_cons_self _ _)
    rw [feed_cons_pending N s b code rest hlen (by omega) hb (by omega)]
    obtain ⟨r, hr, hs, hf, hidx, hl, hp⟩ :=
      ih { s with data_array := s.data_array.set s.index b, index := s.index + 1 }
        (by simp [hlen]) (by simp only; omega) (by simp only; omega)
        (fun p hp => hno p (List.mem_cons_of_mem _ hp))
    refine ⟨r, hr, hs, hf, ?_, hl, ?_⟩
    · rw [hidx]; simp only [List.length_cons]; omega
    · rw [hp, pending_after_store s b (by omega)]
      simp [bytesOf]

/-- Delimiter-free bytes that stop one short of the capacity, followed by one
more byte: a single send carrying all of them. -/
theorem feed_force_flush (N : Nat) (hN : N ≤ 255) (last : Byte × Nat)
    (front : List (Byte × Nat)) :
    ∀ s : AppState, s.data_array.length = N → s.index + front.length + 1 = N →
      (∀ p ∈ front, p.1 ≠ LF) →
      ∃ r, feed N s (front ++ [last]) = some r ∧
        r.sends = [pending s ++ bytesOf (front ++ [last])] ∧
        (last.2 = NRF_SUCCESS ∨ last.2 = NRF_ERROR_INVALID_STATE →
          r.st.index = 0 ∧ r.fatal = none) ∧
        (¬ (last.2 = NRF_SUCCESS ∨ last.2 = NRF_ERROR_INVALID_STATE) →
          r.fatal = some last.2) := by
  induction front with
  | nil =>
    intro s hlen hi _
    obtain ⟨b, code⟩ := last
    simp only [List.length_nil, Nat.add_zero] at hi
    simp only [List.nil_append]
    by_cases hc : code = NRF_SUCCESS ∨ code = NRF_ERROR_INVALID_STATE
    · rw [feed_cons_flush N s b code [] hlen (by omega) (by omega) (Or.inr (by omega)) hc]
      exact ⟨_, rfl, by simp [bytesOf], fun _ => ⟨rfl, rfl⟩, fun h => absurd hc h⟩
    · rw [feed_cons_halt N s b code [] hlen (by omega) (by omega) (Or.inr (by omega)) hc]
      exact ⟨_, rfl, by simp [bytesOf], fun h => absurd h hc, fun _ => rfl⟩
  | cons p rest ih =>
    intro s hlen hi hno
    obtain ⟨b, code⟩ := p
    simp only [List.length_cons] at hi
    have hb : b ≠ LF := hno (b, code) (List.mem_cons_self _ _)
    rw [List.cons_append, feed_cons_pending N s b code _ hlen (by omega) hb (by omega)]
    obtain ⟨r, hr, hs, hok, hbad⟩ :=
      ih { s with data_array := s.data_array.set s.index b, index := s.index + 1 }
        (by simp [hlen]) (by simp only; omega)
        (fun p hp => hno p (List.mem_cons_of_mem _ hp))
    refine ⟨r, hr, ?_, hok, hbad⟩
    rw [hs, pending_after_store s b (by omega)]
    simp [bytesOf]

/-! ## Byte ingestion -/

/-- C1 (amended): for capacity `N ≤ 255`, every buffer of `N` cells, every index
`i < N`, every received byte `b` and every send result, the handler stores `b`
at position `i`.  If `b` is the delimiter or `i + 1 ≥ N` it makes exactly one
send whose payload is the first `i` bytes followed by `b`, of length `i + 1`;
when that send returns `NRF_SUCCESS` or `NRF_ERROR_INVALID_STATE` the index is
left at 0 and the handler returns, and for every other code the fatal error
handler is invoked with that code.  Otherwise there is no send, no halt, and the
index is left at `i + 1`. -/
theorem uart_step_contract (N : Nat) (s : AppState) (b : Byte) (code : Nat)
    (hN : N ≤ 255) (hlen : s.data_array.length = N) (hi : s.index < N) :
    ∃ r, uart_evt_handler N s (.APP_UART_DATA_READY b) code = some r ∧
      r.st.data_array = s.data_array.set s.index b ∧
      (if b = LF ∨ N ≤ s.index + 1 then
        r.sends = [pending s ++ [b]] ∧ (pending s ++ [b]).length = s.index + 1 ∧
          (if code = NRF_SUCCESS ∨ code = NRF_ERROR_INVALID_STATE then
            r.fatal = none ∧ r.st.index = 0
          else r.fatal = some code)
      else r.sends = [] ∧ r.fatal = none ∧ r.st.index = s.index + 1) := by
  have hl : (pending s ++ [b]).length = s.index + 1 := by
    simp [pending_length N s ⟨hlen, hi⟩]
  rw [handler_dataReady N s b code hlen hi (by omega)]
  by_cases h1 : b = LF ∨ N ≤ s.index + 1
  · by_cases h2 : code = NRF_SUCCESS ∨ code = NRF_ERROR_INVALID_STATE
    · simp only [if_pos h1, if_pos h2]
      exact ⟨_, rfl, rfl, rfl, hl, rfl, rfl⟩
    · simp only [if_pos h1, if_neg h2]
      exact ⟨_, rfl, rfl, rfl, hl, rfl⟩
  · simp only [if_neg h1]
    exact ⟨_, rfl, rfl, rfl, rfl, rfl⟩

/-- C1, witness: capacity 8, index 2 after "hi", the delimiter arrives and the
send succeeds. -/
theorem uart_step_contract_witness :
    ∃ r, uart_evt_handler 8 ⟨BLE_CONN_HANDLE_INVALID, [104, 105, 0, 0, 0, 0, 0, 0], 2⟩
        (.APP_UART_DATA_READY LF) NRF_SUCCESS = some r ∧
      r.st.data_array = [104, 105, 10, 0, 0, 0, 0, 0] ∧ r.sends = [[104, 105, 10]] ∧
      r.fatal = none ∧ r.st.index = 0 := by
  obtain ⟨r, hr, hd, hrest⟩ :=
    uart_step_contract 8 ⟨BLE_CONN_HANDLE_INVALID, [104, 105, 0, 0, 0, 0, 0, 0], 2⟩ LF
      NRF_SUCCESS (by decide) (by decide) (by decide)
  rw [if_pos (Or.inl rfl), if_pos (Or.inl rfl)] at hrest
  exact ⟨r, hr, hd, hrest.1, hrest.2.2.1, hrest.2.2.2⟩

/-- C1, as stated, fails: capacity 8, empty buffer, the delimiter arrives and the
send returns `BLE_ERROR_NO_TX_BUFFERS`; the handler halts in the fatal error
handler before the index is reset. -/
theorem uart_step_contract_counterexample :
    ¬ StepContract 8 (initial 8) LF BLE_ERROR_NO_TX_BUFFERS := by
  rintro ⟨r, hr, -, h⟩
  have hev : uart_evt_handler 8 (initial 8) (.APP_UART_DATA_READY LF) BLE_ERROR_NO_TX_BUFFERS
      = some ⟨⟨BLE_CONN_HANDLE_INVALID, [10, 0, 0, 0, 0, 0, 0, 0], 1⟩, [[10]],
          some BLE_ERROR_NO_TX_BUFFERS⟩ := by decide
  rw [hev] at hr
  cases hr
  rw [if_pos (Or.inl rfl)] at h
  exact absurd h.2.2 (by decide)

/-- C2: for capacity `1 ≤ N ≤ 255` and every byte sequence fed from index 0,
whatever the send results, the run is defined, and unless the fatal error
handler halted it the payloads sent, concatenated in order, followed by the
pending bytes of the buffer, are exactly the bytes fed. -/
theorem no_byte_loss (N : Nat) (s : AppState) (input : List (Byte × Nat))
    (h1 : 1 ≤ N) (hN : N ≤ 255) (hlen : s.data_array.length = N) (hidx : s.index = 0) :
    ∃ r, feed N s input = some r ∧
      (r.fatal = none → r.sends.flatten ++ pending r.st = bytesOf input) := by
  have hwf : WellFormed N s := ⟨hlen, by omega⟩
  have hp : pending s = [] := by simp [pending, hidx]
  obtain ⟨r, hr, -⟩ := uart_run_invariant N hN (input.map rxEvent) s hwf
  refine ⟨r, hr, fun hf => ?_⟩
  have h := (feed_frames N hN input s hwf (by simp [hp]) r hr).1 hf
  rw [h, hp, List.nil_append]

/-- C2, witness: capacity 4, the bytes "ab\ncdefg" with the first send suppressed:
two payloads and one pending byte add up to the input. -/
theorem no_byte_loss_witness :
    ∃ r, feed 4 (initial 4)
        [(97, 0), (98, 0), (10, 8), (99, 0), (100, 0), (101, 0), (102, 0), (103, 0)] = some r ∧
      (r.fatal = none →
        r.sends.flatten ++ pending r.st = [97, 98, 10, 99, 100, 101, 102, 103]) :=
  no_byte_loss 4 (initial 4)
    [(97, 0), (98, 0), (10, 8), (99, 0), (100, 0), (101, 0), (102, 0), (103, 0)]
    (by decide) (by decide) (by decide) (by decide)

/-- C3 (amended): for every capacity `N` with `1 ≤ N ≤ 255` and every sequence
of `N` bytes whose first `N - 1` bytes are not the delimiter, fed to an empty
buffer: no send during the first `N - 1` bytes and exactly one send on the
`N`-th byte, carrying all `N` bytes in order; when that send returns
`NRF_SUCCESS` or `NRF_ERROR_INVALID_STATE` the index is 0 afterwards and the
device has not halted. -/
theorem force_flush_one_frame (N : Nat) (s : AppState) (front : List (Byte × Nat))
    (last : Byte × Nat) (hN : N ≤ 255) (hlen : s.data_array.length = N) (hidx : s.index = 0)
    (hfront : front.length + 1 = N) (hno : ∀ p ∈ front, p.1 ≠ LF) :
    (∃ r1, feed N s front = some r1 ∧ r1.sends = [] ∧ r1.fatal = none) ∧
    ∃ r, feed N s (front ++ [last]) = some r ∧ r.sends = [bytesOf (front ++ [last])] ∧
      (last.2 = NRF_SUCCESS ∨ last.2 = NRF_ERROR_INVALID_STATE →
        r.st.index = 0 ∧ r.fatal = none) := by
  constructor
  · obtain ⟨r1, hr1, hs1, hf1, -⟩ :=
      feed_no_frame N front s hlen (by omega) (by omega) hno
    exact ⟨r1, hr1, hs1, hf1⟩
  · obtain ⟨r, hr, hs, hok, -⟩ :=
      feed_force_flush N hN last front s hlen (by omega) hno
    refine ⟨r, hr, ?_, hok⟩
    rw [hs]
    simp [pending, hidx]

/-- C3, witness: capacity 8 and the input "abcdefgh". -/
theorem force_flush_one_frame_witness :
    (∃ r1, feed 8 (initial 8) ((abcdefgh NRF_SUCCESS).take 7) = some r1 ∧ r1.sends = [] ∧
      r1.fatal = none) ∧
    ∃ r, feed 8 (initial 8) ((abcdefgh NRF_SUCCESS).take 7 ++ [(104, NRF_SUCCESS)]) = some r ∧
      r.sends = [bytesOf ((abcdefgh NRF_SUCCESS).take 7 ++ [(104, NRF_SUCCESS)])] ∧
      (NRF_SUCCESS = NRF_SUCCESS ∨ NRF_SUCCESS = NRF_ERROR_INVALID_STATE →
        r.st.index = 0 ∧ r.fatal = none) :=
  force_flush_one_frame 8 (initial 8) ((abcdefgh NRF_SUCCESS).take 7) (104, NRF_SUCCESS)
    (by decide) (by decide) (by decide) (by decide) (by decide)

set_option maxRecDepth 100000 in
/-- C3, as stated, fails twice.  Capacity 256: on the 256th byte the 8-bit index
wraps to 0 and the handler reads `data_array[-1]`, so no defined run sends the
256 bytes.  Capacity 8 and "abcdefgh" with the send answered by
`BLE_ERROR_NO_TX_BUFFERS`: the device halts before the index is reset. -/
theorem force_flush_one_frame_counterexample :
    ¬ ForceFlushContract 256 (initial 256) (List.replicate 256 (97, NRF_SUCCESS)) ∧
    ¬ ForceFlushContract 8 (initial 8) (abcdefgh BLE_ERROR_NO_TX_BUFFERS) := by
  constructor
  · rintro ⟨-, r, hr, -⟩
    have hev : feed 256 (initial 256) (List.replicate 256 (97, NRF_SUCCESS)) = none := by
      decide
    rw [hev] at hr
    cases hr
  · rintro ⟨-, r, hr, -, hi⟩
    have hev : feed 8 (initial 8) (abcdefgh BLE_ERROR_NO_TX_BUFFERS)
        = some ⟨⟨BLE_CONN_HANDLE_INVALID, [97, 98, 99, 100, 101, 102, 103, 104], 8⟩,
            [[97, 98, 99, 100, 101, 102, 103, 104]], some BLE_ERROR_NO_TX_BUFFERS⟩ := by
      decide
    rw [hev] at hr
    cases hr
    exact absurd hi (by decide)

/-- C4: with capacity `N` (at most 256, what an 8-bit index can address), every
byte sequence without a delimiter and strictly shorter than `N`, fed from index
0, makes no send at all, and the index afterwards is the length of the
sequence. -/
theorem no_premature_frame (N : Nat) (s : AppState) (input : List (Byte × Nat))
    (hN : N ≤ 256) (hlen : s.data_array.length = N) (hidx : s.index = 0)
    (hno : ∀ p ∈ input, p.1 ≠ LF) (hshort : input.length < N) :
    ∃ r, feed N s input = some r ∧ r.sends = [] ∧ r.fatal = none ∧
      r.st.index = input.length := by
  obtain ⟨r, hr, hs, hf, hi, -⟩ :=
    feed_no_frame N input s hlen (by omega) (by omega) hno
  exact ⟨r, hr, hs, hf, by omega⟩

/-- C4, witness: capacity 8 and the seven bytes "abcdefg". -/
theorem no_premature_frame_witness :
    ∃ r, feed 8 (initial 8) ((abcdefgh NRF_SUCCESS).take 7) = some r ∧ r.sends = [] ∧
      r.fatal = none ∧ r.st.index = ((abcdefgh NRF_SUCCESS).take 7).length :=
  no_premature_frame 8 (initial 8) ((abcdefgh NRF_SUCCESS).take 7)
    (by decide) (by decide) (by decide) (by decide) (by decide)

/-- C5: for capacity `1 ≤ N ≤ 255`, after every sequence of UART events (data
ready, communication error, FIFO error, other) dispatched from index 0 the run
is defined, i.e. no access left the buffer; the buffer still has `N` cells, the
index is at most `N` and so is the buffered length; and whenever the device has
not halted, so that the handler can be entered again, the index is below `N`,
inside the buffer, and incrementing it does not wrap the 8-bit counter. -/
theorem index_within_buffer (N : Nat) (s : AppState) (evs : List (app_uart_evt_t × Nat))
    (h1 : 1 ≤ N) (hN : N ≤ 255) (hlen : s.data_array.length = N) (hidx : s.index = 0) :
    ∃ r, uart_run N s evs = some r ∧ r.st.data_array.length = N ∧ r.st.index ≤ N ∧
      (pending r.st).length ≤ N ∧
      (r.fatal = none →
        r.st.index < N ∧ r.st.index < r.st.data_array.length ∧
          (r.st.index + 1) % 256 = r.st.index + 1) := by
  obtain ⟨r, hr, hl, hle, hlt, -⟩ := uart_run_invariant N hN evs s ⟨hlen, by omega⟩
  refine ⟨r, hr, hl, hle, ?_, fun hf => ?_⟩
  · simp only [pending, List.length_take]
    omega
  · have := hlt hf
    exact ⟨this, by omega, Nat.mod_eq_of_lt (by omega)⟩

/-- C5, witness: capacity 4, a mix of data-ready and other events that flushes
once on the delimiter and once on the full buffer. -/
theorem index_within_buffer_witness :
    ∃ r, uart_run 4 (initial 4)
        [(.APP_UART_DATA_READY 97, 0), (.APP_UART_OTHER, 0), (.APP_UART_DATA_READY 10, 8),
          (.APP_UART_DATA_READY 98, 0), (.APP_UART_DATA_READY 99, 0),
          (.APP_UART_DATA_READY 100, 0), (.APP_UART_DATA_READY 101, 0),
          (.APP_UART_FIFO_ERROR 5, 0)] = some r ∧
      r.st.data_array.length = 4 ∧ r.st.index ≤ 4 ∧ (pending r.st).length ≤ 4 ∧
      (r.fatal = none →
        r.st.index < 4 ∧ r.st.index < r.st.data_array.length ∧
          (r.st.index + 1) % 256 = r.st.index + 1) :=
  index_within_buffer 4 (initial 4) _ (by decide) (by decide) (by decide) (by decide)

/-! ## Send failures -/

/-- C6: for capacity `N ≤ 255` and a well-formed state, when a byte completes a
frame and the send returns `NRF_ERROR_INVALID_STATE`, the handler makes exactly
one send (of that frame), does not invoke the fatal error handler and leaves the
index at 0; and for every continuation of the input the later sends are cut from
the continuation bytes alone, so the dropped frame is never sent again. -/
theorem suppressed_frame_dropped (N : Nat) (s : AppState) (b : Byte)
    (cont : List (Byte × Nat)) (hN : N ≤ 255) (hlen : s.data_array.length = N)
    (hi : s.index < N) (hb : b = LF ∨ N ≤ s.index + 1) :
    ∃ r0, uart_evt_handler N s (.APP_UART_DATA_READY b) NRF_ERROR_INVALID_STATE = some r0 ∧
      r0.sends = [pending s ++ [b]] ∧ r0.fatal = none ∧ r0.st.index = 0 ∧
      ∃ r, feed N r0.st cont = some r ∧ r.sends.flatten <+: bytesOf cont ∧
        feed N s ((b, NRF_ERROR_INVALID_STATE) :: cont)
          = some ⟨r.st, (pending s ++ [b]) :: r.sends, r.fatal⟩ := by
  have hstep := handler_dataReady N s b NRF_ERROR_INVALID_STATE hlen hi (by omega)
  rw [if_pos hb, if_pos (Or.inr rfl)] at hstep
  refine ⟨_, hstep, rfl, rfl, rfl, ?_⟩
  have hwf0 : WellFormed N
      { s with data_array := s.data_array.set s.index b, index := 0 } :=
    ⟨by simp [hlen], by simp; omega⟩
  obtain ⟨r, hr, -⟩ := uart_run_invariant N hN (cont.map rxEvent) _ hwf0
  have hpre := (feed_frames N hN cont _ hwf0 (by simp [pending]) r hr).2.1
  refine ⟨r, hr, ?_, ?_⟩
  · simpa [pending] using hpre
  · rw [feed_cons_flush N s b NRF_ERROR_INVALID_STATE cont hlen hi (by omega) hb (Or.inr rfl)]
    have hr2 : feed N { s with data_array := s.data_array.set s.index b, index := 0 } cont
        = some r := hr
    rw [hr2]
    rfl

/-- C6, witness: capacity 8, "hi" pending, the delimiter arrives while the link
is not ready, then "ok\n" follows and is sent on its own. -/
theorem suppressed_frame_dropped_witness :
    ∃ r0, uart_evt_handler 8 ⟨BLE_CONN_HANDLE_INVALID, [104, 105, 0, 0, 0, 0, 0, 0], 2⟩
        (.APP_UART_DATA_READY LF) NRF_ERROR_INVALID_STATE = some r0 ∧
      r0.sends = [pending ⟨BLE_CONN_HANDLE_INVALID, [104, 105, 0, 0, 0, 0, 0, 0], 2⟩ ++ [LF]] ∧
      r0.fatal = none ∧ r0.st.index = 0 ∧
      ∃ r, feed 8 r0.st [(111, 0), (107, 0), (10, 0)] = some r ∧
        r.sends.flatten <+: bytesOf [(111, 0), (107, 0), (10, 0)] ∧
        feed 8 ⟨BLE_CONN_HANDLE_INVALID, [104, 105, 0, 0, 0, 0, 0, 0], 2⟩
            ((LF, NRF_ERROR_INVALID_STATE) :: [(111, 0), (107, 0), (10, 0)])
          = some ⟨r.st,
              (pending ⟨BLE_CONN_HANDLE_INVALID, [104, 105, 0, 0, 0, 0, 0, 0], 2⟩ ++ [LF])
                :: r.sends, r.fatal⟩ :=
  suppressed_frame_dropped 8 ⟨BLE_CONN_HANDLE_INVALID, [104, 105, 0, 0, 0, 0, 0, 0], 2⟩ LF
    [(111, 0), (107, 0), (10, 0)] (by decide) (by decide) (by decide) (Or.inl rfl)

/-- C7 (amended): for capacity `N ≤ 255` and a well-formed state, when a byte
completes a frame and the send returns any code other than `NRF_SUCCESS` and
`NRF_ERROR_INVALID_STATE` (a full output queue included), the handler makes
that one send and then invokes the fatal error handler with the code; the device
halts there, so no later event is handled and nothing is retried. -/
theorem transient_failure_is_fatal (N : Nat) (s : AppState) (b : Byte) (code : Nat)
    (rest : List (app_uart_evt_t × Nat)) (hN : N ≤ 255) (hlen : s.data_array.length = N)
    (hi : s.index < N) (hb : b = LF ∨ N ≤ s.index + 1)
    (hc0 : code ≠ NRF_SUCCESS) (hc8 : code ≠ NRF_ERROR_INVALID_STATE) :
    ∃ r, uart_evt_handler N s (.APP_UART_DATA_READY b) code = some r ∧
      r.sends = [pending s ++ [b]] ∧ r.fatal = some code ∧
      uart_run N s ((.APP_UART_DATA_READY b, code) :: rest) = some r := by
  have hstep := handler_dataReady N s b code hlen hi (by omega)
  rw [if_pos hb, if_neg (by rintro (h | h); exact hc0 h; exact hc8 h)] at hstep
  exact ⟨_, hstep, rfl, rfl,
    uart_run_cons_fatal N s (.APP_UART_DATA_READY b) code rest _ code hstep rfl⟩

/-- C7, witness: capacity 8, empty buffer, the delimiter arrives and the send
returns `BLE_ERROR_NO_TX_BUFFERS`; a following byte is never handled. -/
theorem transient_failure_is_fatal_witness :
    ∃ r, uart_evt_handler 8 (initial 8) (.APP_UART_DATA_READY LF) BLE_ERROR_NO_TX_BUFFERS
        = some r ∧
      r.sends = [pending (initial 8) ++ [LF]] ∧ r.fatal = some BLE_ERROR_NO_TX_BUFFERS ∧
      uart_run 8 (initial 8)
        ((.APP_UART_DATA_READY LF, BLE_ERROR_NO_TX_BUFFERS) :: [(.APP_UART_DATA_READY 97, 0)])
          = some r :=
  transient_failure_is_fatal 8 (initial 8) LF BLE_ERROR_NO_TX_BUFFERS
    [(.APP_UART_DATA_READY 97, 0)] (by decide) (by decide) (by decide) (Or.inl rfl)
    (by decide) (by decide)

/-- C7, as stated, fails: capacity 8, empty buffer, the delimiter arrives and the
send returns `BLE_ERROR_NO_TX_BUFFERS`, a code distinct from `NRF_SUCCESS` and
from `NRF_ERROR_INVALID_STATE`; the frame is not dropped quietly, the fatal error
handler is invoked. -/
theorem transient_failure_counterexample :
    BLE_ERROR_NO_TX_BUFFERS ≠ NRF_SUCCESS ∧
    BLE_ERROR_NO_TX_BUFFERS ≠ NRF_ERROR_INVALID_STATE ∧
    ¬ FrameDropped 8 (initial 8) LF BLE_ERROR_NO_TX_BUFFERS := by
  refine ⟨by decide, by decide, ?_⟩
  rintro ⟨r, hr, -, hf, -⟩
  have hev : uart_evt_handler 8 (initial 8) (.APP_UART_DATA_READY LF) BLE_ERROR_NO_TX_BUFFERS
      = some ⟨⟨BLE_CONN_HANDLE_INVALID, [10, 0, 0, 0, 0, 0, 0, 0], 1⟩, [[10]],
          some BLE_ERROR_NO_TX_BUFFERS⟩ := by decide
  rw [hev] at hr
  cases hr
  exact absurd hf (by decide)

/-! ## Link readiness -/

/-- C8 (amended): the forwarding code applies no readiness gate of its own.  For
capacity `N ≤ 255`, a well-formed state and a byte that completes a frame, the
handler invokes `ble_cus_string_send` exactly once whatever `m_conn_handle`
holds, and what it does is the same for every value of `m_conn_handle`; when the
send returns `NRF_ERROR_INVALID_STATE` the frame is suppressed: no fatal error,
index back at 0.  `data_send` likewise makes its one send unconditionally. -/
theorem send_not_gated (N : Nat) (s : AppState) (b : Byte) (code : Nat) (h : Nat)
    (hN : N ≤ 255) (hlen : s.data_array.length = N) (hi : s.index < N)
    (hb : b = LF ∨ N ≤ s.index + 1) :
    ∃ r, uart_evt_handler N s (.APP_UART_DATA_READY b) code = some r ∧
      r.sends = [pending s ++ [b]] ∧
      uart_evt_handler N { s with m_conn_handle := h } (.APP_UART_DATA_READY b) code
        = some ⟨{ r.st with m_conn_handle := h }, r.sends, r.fatal⟩ ∧
      (code = NRF_ERROR_INVALID_STATE → r.fatal = none ∧ r.st.index = 0) ∧
      (data_send N s code).sends.length = 1 ∧
      (code = NRF_ERROR_INVALID_STATE → (data_send N s code).fatal = none) := by
  have hstep := handler_dataReady N s b code hlen hi (by omega)
  have h8 : s.index < 255 := by omega
  have hstep2 := handler_dataReady N { s with m_conn_handle := h } b code hlen hi h8
  have hds : code = NRF_ERROR_INVALID_STATE → (data_send N s code).fatal = none := by
    intro hc
    simp [data_send, hc]
  rw [if_pos hb] at hstep hstep2
  by_cases hc : code = NRF_SUCCESS ∨ code = NRF_ERROR_INVALID_STATE
  · rw [if_pos hc] at hstep hstep2
    exact ⟨_, hstep, rfl, hstep2, fun _ => ⟨rfl, rfl⟩, rfl, hds⟩
  · rw [if_neg hc] at hstep hstep2
    exact ⟨_, hstep, rfl, hstep2, fun h8 => absurd (Or.inr h8) hc, rfl, hds⟩

/-- C8, witness: capacity 8, "hi" pending, the delimiter arrives while
`m_conn_handle` is `BLE_CONN_HANDLE_INVALID`; the same happens with handle 0. -/
theorem send_not_gated_witness :
    ∃ r, uart_evt_handler 8 ⟨BLE_CONN_HANDLE_INVALID, [104, 105, 0, 0, 0, 0, 0, 0], 2⟩
        (.APP_UART_DATA_READY LF) NRF_ERROR_INVALID_STATE = some r ∧
      r.sends = [pending ⟨BLE_CONN_HANDLE_INVALID, [104, 105, 0, 0, 0, 0, 0, 0], 2⟩ ++ [LF]] ∧
      uart_evt_handler 8 ⟨0, [104, 105, 0, 0, 0, 0, 0, 0], 2⟩
          (.APP_UART_DATA_READY LF) NRF_ERROR_INVALID_STATE
        = some ⟨{ r.st with m_conn_handle := 0 }, r.sends, r.fatal⟩ ∧
      (NRF_ERROR_INVALID_STATE = NRF_ERROR_INVALID_STATE → r.fatal = none ∧ r.st.index = 0) ∧
      (data_send 8 ⟨BLE_CONN_HANDLE_INVALID, [104, 105, 0, 0, 0, 0, 0, 0], 2⟩
        NRF_ERROR_INVALID_STATE).sends.length = 1 ∧
      (NRF_ERROR_INVALID_STATE = NRF_ERROR_INVALID_STATE →
        (data_send 8 ⟨BLE_CONN_HANDLE_INVALID, [104, 105, 0, 0, 0, 0, 0, 0], 2⟩
          NRF_ERROR_INVALID_STATE).fatal = none) :=
  send_not_gated 8 ⟨BLE_CONN_HANDLE_INVALID, [104, 105, 0, 0, 0, 0, 0, 0], 2⟩ LF
    NRF_ERROR_INVALID_STATE 0 (by decide) (by decide) (by decide) (Or.inl rfl)

/-- C8, as stated, fails: with no peer connected (`m_conn_handle` is
`BLE_CONN_HANDLE_INVALID`), capacity 8 and an empty buffer, the delimiter makes
the handler call `ble_cus_string_send` with the one-byte frame, and `data_send`
calls it with "j\n". -/
theorem send_gated_counterexample :
    ¬ SendGated 8 (initial 8) LF NRF_ERROR_INVALID_STATE ∧
    (data_send 8 (initial 8) NRF_ERROR_INVALID_STATE).sends = [[106, 10]] := by
  refine ⟨fun hg => ?_, by decide⟩
  obtain ⟨r, hr, hs⟩ := hg rfl
  have hev : uart_evt_handler 8 (initial 8) (.APP_UART_DATA_READY LF) NRF_ERROR_INVALID_STATE
      = some ⟨⟨BLE_CONN_HANDLE_INVALID, [10, 0, 0, 0, 0, 0, 0, 0], 0⟩, [[10]], none⟩ := by
    decide
  rw [hev] at hr
  cases hr
  exact absurd hs (by decide)

/-! ## Connection handle -/

theorem handleAfter_cons (h0 : Nat) (e : ble_evt_t) (rest : List ble_evt_t) :
    handleAfter h0 (e :: rest) = handleAfter (handleAfter h0 [e]) rest := by
  simp only [handleAfter, List.reverse_cons, List.find?_append, List.reverse_nil,
    List.nil_append]
  cases rest.reverse.find? (fun e =>
      decide (e.evt_id = .BLE_GAP_EVT_CONNECTED) ||
        decide (e.evt_id = .BLE_GAP_EVT_DISCONNECTED)) with
  | some e2 => rfl
  | none => simp only [Option.none_or, Option.or_none]

theorem on_ble_evt_handle (s : AppState) (e : ble_evt_t) (code : Nat) :
    (on_ble_evt s e code).st.m_conn_handle = handleAfter s.m_conn_handle [e] := by
  obtain ⟨id, h⟩ := e
  cases id <;> simp [on_ble_evt, handleAfter]

theorem ble_run_handle (evs : List (ble_evt_t × Nat)) :
    ∀ s : AppState,
      (ble_run s evs).st.m_conn_handle = handleAfter s.m_conn_handle (ble_handled s evs) := by
  induction evs with
  | nil => intro s; rfl
  | cons p rest ih =>
    intro s
    obtain ⟨e, code⟩ := p
    cases hf : (on_ble_evt s e code).fatal with
    | some c =>
      simp only [ble_run, ble_handled, hf]
      exact on_ble_evt_handle s e code
    | none =>
      simp only [ble_run, ble_handled, hf]
      rw [ih, handleAfter_cons, on_ble_evt_handle]

theorem ble_handled_all (evs : List (ble_evt_t × Nat)) :
    ∀ s : AppState, (ble_run s evs).fatal = none → ble_handled s evs = evs.map Prod.fst := by
  induction evs with
  | nil => intro s _; rfl
  | cons p rest ih =>
    intro s h
    obtain ⟨e, code⟩ := p
    cases hf : (on_ble_evt s e code).fatal with
    | some c =>
      simp only [ble_run, hf] at h
      cases h
    | none =>
      simp only [ble_run, hf] at h
      simp only [ble_handled, hf, List.map_cons]
      rw [ih _ h]

/-- C9: `on_ble_evt` sets `m_conn_handle` to the handle carried by a connect
event, to `BLE_CONN_HANDLE_INVALID` on a disconnect event, and leaves it (and
the UART statics) unchanged for every other event id.  Hence, starting from
`BLE_CONN_HANDLE_INVALID`, after every sequence of events the handle is that of
the most recent handled connect event if no disconnect followed it and
`BLE_CONN_HANDLE_INVALID` otherwise, every event being handled unless the device
halted; in particular connect followed by disconnect ends with no peer. -/
theorem conn_handle_lifecycle (s : AppState) (evs : List (ble_evt_t × Nat))
    (h0 : s.m_conn_handle = BLE_CONN_HANDLE_INVALID) :
    (∀ (t : AppState) (e : ble_evt_t) (code : Nat),
      (e.evt_id = .BLE_GAP_EVT_CONNECTED →
        (on_ble_evt t e code).st.m_conn_handle = e.conn_handle) ∧
      (e.evt_id = .BLE_GAP_EVT_DISCONNECTED →
        (on_ble_evt t e code).st.m_conn_handle = BLE_CONN_HANDLE_INVALID) ∧
      (e.evt_id ≠ .BLE_GAP_EVT_CONNECTED → e.evt_id ≠ .BLE_GAP_EVT_DISCONNECTED →
        (on_ble_evt t e code).st.m_conn_handle = t.m_conn_handle) ∧
      (on_ble_evt t e code).st.data_array = t.data_array ∧
      (on_ble_evt t e code).st.index = t.index) ∧
    (ble_run s evs).st.m_conn_handle = expected_conn_handle (ble_handled s evs) ∧
    ((ble_run s evs).fatal = none → ble_handled s evs = evs.map Prod.fst) ∧
    (∀ (h1 h2 c1 c2 : Nat),
      (ble_run s [(⟨.BLE_GAP_EVT_CONNECTED, h1⟩, c1),
        (⟨.BLE_GAP_EVT_DISCONNECTED, h2⟩, c2)]).st.m_conn_handle
          = BLE_CONN_HANDLE_INVALID) := by
  refine ⟨?_, ?_, ble_handled_all evs s, ?_⟩
  · intro t e code
    obtain ⟨id, h⟩ := e
    cases id <;> simp [on_ble_evt]
  · rw [ble_run_handle evs s, h0]
    rfl
  · intro h1 h2 c1 c2
    rfl

/-- C9, witness: connect with handle 3, a security request, disconnect, connect
with handle 7, an unrelated event: handle 7 remains. -/
theorem conn_handle_lifecycle_witness :
    (ble_run (initial 8)
      [(⟨.BLE_GAP_EVT_CONNECTED, 3⟩, 0), (⟨.BLE_GAP_EVT_SEC_PARAMS_REQUEST, 3⟩, 0),
        (⟨.BLE_GAP_EVT_DISCONNECTED, 3⟩, 0), (⟨.BLE_GAP_EVT_CONNECTED, 7⟩, 0),
        (⟨.BLE_EVT_OTHER 80, 7⟩, 0)]).st.m_conn_handle = 7 := by
  have h := (conn_handle_lifecycle (initial 8)
    [(⟨.BLE_GAP_EVT_CONNECTED, 3⟩, 0), (⟨.BLE_GAP_EVT_SEC_PARAMS_REQUEST, 3⟩, 0),
      (⟨.BLE_GAP_EVT_DISCONNECTED, 3⟩, 0), (⟨.BLE_GAP_EVT_CONNECTED, 7⟩, 0),
      (⟨.BLE_EVT_OTHER 80, 7⟩, 0)] rfl).2.1
  rw [h]
  decide

/-! ## Shape of forwarded frames -/

/-- C10: for capacity `1 ≤ N ≤ 255` and every byte sequence fed from index 0,
every payload passed to `ble_cus_string_send` has between 1 and `N` bytes, holds
the delimiter at no position but its last, and either ends in the delimiter or
has exactly `N` bytes; the bytes pending in the buffer of a device that has not
halted never contain the delimiter; and the payloads, concatenated, are an
initial part of the bytes fed, so no stale buffer content is ever sent. -/
theorem forwarded_frame_shape (N : Nat) (s : AppState) (input : List (Byte × Nat))
    (h1 : 1 ≤ N) (hN : N ≤ 255) (hlen : s.data_array.length = N) (hidx : s.index = 0) :
    ∃ r, feed N s input = some r ∧
      (∀ p ∈ r.sends, 1 ≤ p.length ∧ p.length ≤ N ∧ LF ∉ p.dropLast ∧
        (p.getLast? = some LF ∨ p.length = N)) ∧
      (r.fatal = none → LF ∉ pending r.st) ∧
      r.sends.flatten <+: bytesOf input := by
  have hwf : WellFormed N s := ⟨hlen, by omega⟩
  have hp : pending s = [] := by simp [pending, hidx]
  obtain ⟨r, hr, -⟩ := uart_run_invariant N hN (input.map rxEvent) s hwf
  obtain ⟨-, h2, h3, h4⟩ := feed_frames N hN input s hwf (by simp [hp]) r hr
  rw [hp, List.nil_append] at h2
  exact ⟨r, hr, h3, h4, h2⟩

/-- C10, witness: capacity 4, stale bytes "zzzz" in the buffer, the bytes
"a\nbcdef\n" fed: the payloads are "a\n", "bcde" and "f\n". -/
theorem forwarded_frame_shape_witness :
    ∃ r, feed 4 ⟨BLE_CONN_HANDLE_INVALID, [122, 122, 122, 122], 0⟩
        [(97, 0), (10, 0), (98, 8), (99, 0), (100, 0), (101, 8), (102, 0), (10, 0)] = some r ∧
      (∀ p ∈ r.sends, 1 ≤ p.length ∧ p.length ≤ 4 ∧ LF ∉ p.dropLast ∧
        (p.getLast? = some LF ∨ p.length = 4)) ∧
      (r.fatal = none → LF ∉ pending r.st) ∧
      r.sends.flatten <+:
        bytesOf [(97, 0), (10, 0), (98, 8), (99, 0), (100, 0), (101, 8), (102, 0), (10, 0)] :=
  forwarded_frame_shape 4 ⟨BLE_CONN_HANDLE_INVALID, [122, 122, 122, 122], 0⟩
    [(97, 0), (10, 0), (98, 8), (99, 0), (100, 0), (101, 8), (102, 0), (10, 0)]
    (by decide) (by decide) (by decide) (by decide)

end GattBridge
